import Mathlib

/-!
Verification development for the `get_modis` MODIS downloading tool
(`get_modis.py`).  The Python source is shallowly embedded below:

* strings are modelled as `List Char` (`Str`), with the lexicographic
  order of `List Char` coinciding with Python's string comparison;
* the filesystem (the output directory) is an association list from
  file names to file contents, a content being the list of the byte
  sizes of the chunks written to the file;
* the network is an oracle: each session attempt and each date's
  processing receives its remote responses (or the exception the
  corresponding `requests` call raises) as explicit parameters;
* the orchestrator `get_modisfiles` is a fuel-indexed interpreter of
  the source's `while` loops, with the two `except` handlers embedded
  verbatim (including the Python name-resolution failures they can
  themselves raise, modelled as `HandlerCrash`).
-/

namespace GetModis

/-- Strings of the Python source, modelled as lists of characters.
Python compares strings lexicographically by code point, which is the
lexicographic order on `List Char`. -/
abbrev Str := List Char

/-! ## Calendar arithmetic (`calendar.isleap`, `time.strptime`/`strftime`) -/

/-- `calendar.isleap(year)`. -/
def isleap (year : Nat) : Bool :=
  year % 4 == 0 && (year % 100 != 0 || year % 400 == 0)

/-- Number of days of month `m` (1-based) of `year`, as used by Python's
`datetime.date`. -/
def daysInMonth (year m : Nat) : Nat :=
  if m = 2 then (if isleap year then 29 else 28)
  else if m = 4 ∨ m = 6 ∨ m = 9 ∨ m = 11 then 30
  else 31

/-- Number of days of `year`. -/
def daysInYear (year : Nat) : Nat :=
  if isleap year then 366 else 365

/-- Days of `year` strictly before month `m` (1-based). -/
def daysBeforeMonth (year : Nat) : Nat → Nat
  | 0 => 0
  | 1 => 0
  | m + 1 => daysBeforeMonth year m + daysInMonth year m

/-- Day of year (1-based) of the date `(year, m, d)`. -/
def dateToDoy (year m d : Nat) : Nat :=
  daysBeforeMonth year m + d

/-- Walks the months starting at month `m` with `r` days remaining,
returning the month and day reached; the fuel is the number of months
still allowed to be consumed. -/
def doyToMD (year : Nat) : Nat → Nat → Nat → Nat × Nat
  | 0, m, r => (m, r)
  | fuel + 1, m, r =>
    if r ≤ daysInMonth year m then (m, r)
    else doyToMD year fuel (m + 1) (r - daysInMonth year m)

/-- Calendar date of day-of-year `doy` (1-based) of `year`, following
`datetime.date.fromordinal` as used by `_strptime` for `%j`: a `doy`
beyond the end of the year overflows into January of the next year. -/
def doyToDate (year doy : Nat) : Nat × Nat × Nat :=
  if doy ≤ daysInYear year then
    let md := doyToMD year 12 1 doy
    (year, md.1, md.2)
  else (year + 1, 1, doy - daysInYear year)

/-! ## Decimal numerals -/

/-- The decimal digit character for `n < 10`. -/
def digitChar (n : Nat) : Char :=
  Char.ofNat ('0'.toNat + n)

/-- Decimal digits with explicit fuel (any `fuel ≥ n` suffices, and the
fuel-0 case is only reached for `n < 10`). -/
def natDigitsAux : Nat → Nat → Str
  | 0, n => [digitChar n]
  | fuel + 1, n =>
    if n < 10 then [digitChar n]
    else natDigitsAux fuel (n / 10) ++ [digitChar (n % 10)]

/-- Decimal digits of `n`, most significant first (`"%d" % n`). -/
def natDigits (n : Nat) : Str :=
  natDigitsAux n n

/-- Zero-padded decimal numeral of width `w` (`"%0*d"`), as produced by
`strftime` for `%Y`, `%m`, `%d` and `%j`. -/
def padNum (w n : Nat) : Str :=
  List.replicate (w - (natDigits n).length) '0' ++ natDigits n

/-- Value of a string of decimal digits (with `strToNat [] = 0`). -/
def strToNat (s : Str) : Nat :=
  s.foldl (fun a c => a * 10 + (c.toNat - '0'.toNat)) 0

/-! ## String helpers (Python `str` methods used by the source) -/

/-- Python `needle in haystack` / `haystack.find(needle) >= 0`. -/
def isSubstrOf : Str → Str → Bool
  | n, [] => n.isEmpty
  | n, c :: cs => n.isPrefixOf (c :: cs) || isSubstrOf n cs

/-- Python `s.split(c)` for a single-character separator `c`. -/
def splitOnChar (c : Char) : Str → List Str
  | [] => [[]]
  | x :: xs =>
    match splitOnChar c xs with
    | [] => [[]]
    | r :: rs => if x = c then [] :: r :: rs else (x :: r) :: rs

/-- One step of Python `s.split(sep)` for a non-empty separator:
scans `s`, splitting at each non-overlapping occurrence of `sep`,
with enough `fuel` to finish (any `fuel ≥ s.length` suffices). -/
def splitOnSubAux (sep : Str) : Nat → Str → Str → List Str
  | _, [], acc => [acc.reverse]
  | 0, s, acc => [acc.reverse ++ s]
  | fuel + 1, c :: cs, acc =>
    if sep.isPrefixOf (c :: cs) then
      acc.reverse :: splitOnSubAux sep fuel ((c :: cs).drop sep.length) []
    else
      splitOnSubAux sep fuel cs (c :: acc)

/-- Python `s.split(sep)` for a non-empty multi-character separator. -/
def splitOnSub (sep s : Str) : List Str :=
  splitOnSubAux sep s.length s []

/-- Python `s.strip(c)` for a single character: drops every leading and
trailing occurrence of `c`. -/
def stripChar (c : Char) (s : Str) : Str :=
  ((s.dropWhile (· = c)).reverse.dropWhile (· = c)).reverse

/-- Glob matching with explicit fuel; every recursive call shrinks the
combined length of pattern and string, so any
`fuel ≥ pattern.length + s.length` suffices. -/
def globMatchAux : Nat → Str → Str → Bool
  | _, [], [] => true
  | _, [], _ :: _ => false
  | 0, _ :: _, _ => false
  | fuel + 1, '*' :: ps, [] => globMatchAux fuel ps []
  | fuel + 1, '*' :: ps, c :: cs =>
    globMatchAux fuel ps (c :: cs) || globMatchAux fuel ('*' :: ps) cs
  | fuel + 1, p :: ps, c :: cs => p == c && globMatchAux fuel ps cs
  | _ + 1, _ :: _, [] => false

/-- `fnmatch.fnmatch` restricted to patterns built from literal
characters and `*` (the only pattern characters the source uses). -/
def globMatch (pat s : Str) : Bool :=
  globMatchAux (pat.length + s.length) pat s

/-! ## `time.strptime` / `time.strftime` for the formats the source uses -/

/-- `time.strptime(s, "%Y.%m.%d")`: `%Y` matches exactly four digits,
`%m` one or two digits in 1..12, `%d` one or two digits in 1..31, and
`_strptime` additionally validates the triple through
`datetime.date(year, month, day)` (rejecting year 0 and a day beyond
the month's length).  Returns `none` where Python raises `ValueError`. -/
def strptimeYmd (s : Str) : Option (Nat × Nat × Nat) :=
  match splitOnChar '.' s with
  | [ys, ms, ds] =>
    if ys.length = 4 ∧ ys.all (·.isDigit)
        ∧ 1 ≤ ms.length ∧ ms.length ≤ 2 ∧ ms.all (·.isDigit)
        ∧ 1 ≤ ds.length ∧ ds.length ≤ 2 ∧ ds.all (·.isDigit) then
      let y := strToNat ys
      let m := strToNat ms
      let d := strToNat ds
      if 1 ≤ y ∧ 1 ≤ m ∧ m ≤ 12 ∧ 1 ≤ d ∧ d ≤ daysInMonth y m then
        some (y, m, d)
      else none
    else none
  | _ => none

/-- `time.strftime("%Y%j", t)` for a date `(y, m, d)`: the four-digit
year followed by the three-digit zero-padded day of year. -/
def strftimeYj (y m d : Nat) : Str :=
  padNum 4 y ++ padNum 3 (dateToDoy y m d)

/-- `time.strftime("%Y.%m.%d", t)` for a date `(y, m, d)`. -/
def strftimeYmd (y m d : Nat) : Str :=
  padNum 4 y ++ '.' :: padNum 2 m ++ '.' :: padNum 2 d

/-- `time.strptime("%d/%d" % (doy, year), "%j/%Y")`: `%j` matches a
1..3-digit number in 1..366 and `%Y` exactly four digits, so the call
raises `ValueError` (here `none`) unless `1 ≤ doy ≤ 366` and
`1000 ≤ year ≤ 9999`; otherwise the result is the calendar date
`doyToDate year doy` (`_strptime` trusts a supplied julian day and
converts it with `fromordinal`). -/
def strptimeJY (doy year : Nat) : Option (Nat × Nat × Nat) :=
  if 1 ≤ doy ∧ doy ≤ 366 ∧ 1000 ≤ year ∧ year ≤ 9999 then
    some (doyToDate year doy)
  else none

/-! ## `parse_modis_dates` (source lines 119-185) -/

/-- Python `sorted(set(l))`: the sorted list of the distinct elements
of `l` (Python materialises the set into a list in unspecified order
and then sorts it, which yields exactly this canonical list). -/
def sortedSet (l : List Str) : List Str :=
  List.insertionSort (· ≤ ·) l.dedup

/-- Lines 151-156: the `"%Y%j"` date codes of the product/tile files
already present in the output directory.  The pattern
`"%s*%s*hdf" % (product, tile)` is matched by `fnmatch.filter`, and the
date code of a hit `x` is `x.split(".")[-5][1:]`.  (Python raises
`IndexError` when a matching name has fewer than five dot-separated
fields; local files are always well-formed MODIS names here, and the
embedding then takes the first field instead.) -/
def alreadyHereDates (product tile : Str) (listdir : List Str) : List Str :=
  let product0 := (splitOnChar '.' product).headD []
  let pat := product0 ++ '*' :: tile ++ '*' :: ('h' :: 'd' :: 'f' :: [])
  let already_here := listdir.filter (globMatch pat)
  already_here.map (fun x =>
    let ps := splitOnChar '.' x
    (ps.getD (ps.length - 5) []).drop 1)

/-- Lines 119-185, `parse_modis_dates`.  The network is abstracted to
`links`, the raw anchor `href` values of the product root listing, and
the output directory to `listdir`, its list of file names.  Each link
is trimmed of its final character (`link.get('href')[:-1]`).  With
`check_sizes` unset, links that do not parse as `"%Y.%m.%d"` dates are
dropped (`except ValueError: continue`) and dates whose file is
already present locally are dropped; with `check_sizes` set every
trimmed link is kept.  The result is the sorted intersection of the
requested `dates` with the retained links
(`list(set(dates).intersection(set(available_dates)))` followed by
`.sort()`). -/
def parse_modis_dates (links dates : List Str) (product tile : Str)
    (listdir : List Str) (check_sizes : Bool) : List Str :=
  let available_dates :=
    if check_sizes then
      links.map List.dropLast
    else
      let already_here_dates := alreadyHereDates product tile listdir
      links.filterMap (fun link =>
        let the_date := link.dropLast
        match strptimeYmd the_date with
        | none => none
        | some (y, m, d) =>
          if strftimeYj y m d ∈ already_here_dates then none
          else some the_date)
  sortedSet (dates.filter (· ∈ available_dates))

/-- Modelled from the spec (§4.3, §8): `sorted(A ∩ R)`, the sorted
list of the dates both available and requested. -/
def specSortedInter (A R : List Str) : List Str :=
  List.insertionSort (· ≤ ·) ((A.filter (· ∈ R)).dedup)

/-! ## The output directory -/

/-- Contents of a local file: the byte sizes of the chunks written to
it, in order.  `os.path.getsize` is the sum. -/
abbrev Content := List Nat

/-- The output directory: an association of file names to contents. -/
abbrev FS := List (Str × Content)

/-- Looks a file name up in the directory. -/
def lookupFS : FS → Str → Option Content
  | [], _ => none
  | (n, c) :: fs, g => if n = g then some c else lookupFS fs g

/-- Removes a file name from the directory. -/
def fsErase : FS → Str → FS
  | [], _ => []
  | (n, c) :: fs, g => if n = g then fsErase fs g else (n, c) :: fsErase fs g

/-- Creates or overwrites a file (`open(..., 'wb')` truncates). -/
def fsSet (fs : FS) (name : Str) (c : Content) : FS :=
  (name, c) :: fsErase fs name

/-- Appends one chunk to an existing file (`fp.write(chunk)`). -/
def fsAppend (fs : FS) (name : Str) (ch : Nat) : FS :=
  fsSet fs name (((lookupFS fs name).getD []) ++ [ch])

/-- `os.rename(src, dst)`: moves `src` over `dst` (replacing it). -/
def fsRename (fs : FS) (src dst : Str) : FS :=
  match lookupFS fs src with
  | none => fs
  | some c => fsSet (fsErase fs src) dst c

/-- `os.listdir(out_dir)`. -/
def fsNames (fs : FS) : List Str :=
  fs.map (·.1)

/-! ## Processing one date (source lines 311-387) -/

/-- The two transport exceptions the orchestrator catches. -/
inductive Exc
  | timeout
  | connErr
deriving DecidableEq

/-- Remote responses consumed while one date is processed: the date
directory listing (or the exception its `GET` raises), and the
behaviour of the at most one streaming `GET` of the data file. -/
structure DateEnv where
  /-- Result of `s.get("%s/%s" % (url, date))`: the page text, or the
  exception the call raises. -/
  listing : Except Exc Str
  /-- Exception raised by the streaming `s.get(the_url, stream=True)`,
  if any. -/
  openExc : Option Exc
  /-- `rfile.ok` of the streaming response. -/
  rfileOk : Bool
  /-- `int(rfile.headers['content-length'])`. -/
  remote_size : Nat
  /-- Byte sizes of the chunks `rfile.iter_content` yields. -/
  chunks : List Nat
  /-- When `some (k, e)`: `iter_content` raises `e` after `k` chunks
  were consumed. -/
  streamExc : Option (Nat × Exc)

/-- The data-file extension `".hdf"`. -/
def hdfStr : Str := '.' :: 'h' :: 'd' :: 'f' :: []

/-- The sidecar metadata extension `".hdf.xml"`. -/
def hdfXmlStr : Str := '.' :: 'h' :: 'd' :: 'f' :: '.' :: 'x' :: 'm' :: 'l' :: []

/-- Line 315-316: the selection predicate on one line of a date
listing, `(line.find(tile) >= 0) & (line.find(".hdf") >= 0 >
line.find(".hdf.xml"))` — the line contains the tile code and
`".hdf"` but not `".hdf.xml"`. -/
def matchLine (tile line : Str) : Bool :=
  isSubstrOf tile line && isSubstrOf hdfStr line && !isSubstrOf hdfXmlStr line

/-- Line 313-326: the first listing line passing `matchLine`, found by
the `for`/`break` loop. -/
def selectLine (tile : Str) (lines : List Str) : Option Str :=
  lines.find? (matchLine tile)

/-- Line 319: `line.split("href=")[1].split(">")[0].strip('"')`.
(Python raises `IndexError` if the matched line holds no `href=`;
listing lines always do, and the embedding then yields the empty
name.) -/
def extractFname (line : Str) : Str :=
  let afterHref := (splitOnSub ('h' :: 'r' :: 'e' :: 'f' :: '=' :: []) line).getD 1 []
  let beforeGt := (splitOnChar '>' afterHref).getD 0 []
  stripChar '"' beforeGt

/-- The `.part` suffix of in-progress downloads. -/
def partSuffix : Str :=
  '.' :: 'p' :: 'a' :: 'r' :: 't' :: []

/-- Lines 377-379: the streaming write loop.  One chunk is consumed
per step; an empty chunk is not written (`if chunk:`); when the
environment injects an exception after `k` chunks, the loop stops
there with the exception. -/
def writeChunks (pname : Str) : FS → List Nat → Option (Nat × Exc) → FS × Option Exc
  | fs, [], _ => (fs, none)
  | fs, _ :: _, some (0, e) => (fs, some e)
  | fs, ch :: rest, some (k + 1, e) =>
    writeChunks pname (if ch = 0 then fs else fsAppend fs pname ch) rest (some (k, e))
  | fs, ch :: rest, none =>
    writeChunks pname (if ch = 0 then fs else fsAppend fs pname ch) rest none

/-- Lines 376-387: stream the response body into `fname + '.part'`
(the `open` truncates it first) and, only once the loop finishes
without an exception, rename the `.part` file onto the final name. -/
def download_file (fs : FS) (fname : Str) (chunks : List Nat)
    (streamExc : Option (Nat × Exc)) : FS × Option Exc :=
  let pname := fname ++ partSuffix
  let fs1 := fsSet fs pname []
  match writeChunks pname fs1 chunks streamExc with
  | (fs2, some e) => (fs2, some e)
  | (fs2, none) => (fsRename fs2 pname fname, none)

/-- Outcome of one date's processing when no exception escapes. -/
inductive DateOutcome
  | noFile
  | skipped (fname : Str)
  | downloaded (fname : Str)
deriving DecidableEq

/-- Result of one date's processing. -/
inductive PDResult
  /-- The iteration completed (the `continue`/fall-through paths). -/
  | ok (fs : FS) (out : DateOutcome)
  /-- A `Timeout`/`ConnectionError` escaped to the session handlers. -/
  | exc (e : Exc) (fs : FS)
  /-- The uncaught `IOError("Can't access...")` of a bad response. -/
  | fatal (fs : FS)
deriving DecidableEq

/-- Lines 311-387: processing of a single popped date.  Fetch the date
listing, select the first matching line and extract the file name; no
match logs and moves on.  If the file exists locally: with
`check_sizes` the remote size is probed and compared against the local
size (equal sizes skip, different sizes re-download), without
`check_sizes` the file is skipped on existence alone.  A needed
download opens the stream (unless the size probe already did), writes
the body to the `.part` file and renames it on completion. -/
def process_date (check_sizes : Bool) (tile : Str) (env : DateEnv) (fs : FS) : PDResult :=
  match env.listing with
  | .error e => .exc e fs
  | .ok text =>
    match selectLine tile (splitOnChar '\n' text) with
    | none => .ok fs .noFile
    | some line =>
      let fname := extractFname line
      if (lookupFS fs fname).isSome then
        if check_sizes then
          match env.openExc with
          | some e => .exc e fs
          | none =>
            if !env.rfileOk then .fatal fs
            else if env.remote_size = ((lookupFS fs fname).getD []).sum then
              .ok fs (.skipped fname)
            else
              match download_file fs fname env.chunks env.streamExc with
              | (fs2, some e) => .exc e fs2
              | (fs2, none) => .ok fs2 (.downloaded fname)
        else .ok fs (.skipped fname)
      else
        match env.openExc with
        | some e => .exc e fs
        | none =>
          if !env.rfileOk then .fatal fs
          else
            match download_file fs fname env.chunks env.streamExc with
            | (fs2, some e) => .exc e fs2
            | (fs2, none) => .ok fs2 (.downloaded fname)

/-! ## The orchestrator `get_modisfiles` (source lines 188-421) -/

/-- Remote behaviour of one session attempt (one iteration of the
outer `while`). -/
structure AttemptPlan where
  /-- Exception raised inside the login block (the SSO portal `GET` or
  the login `POST`), if any. -/
  login : Option Exc
  /-- Whether the login succeeds (`r.ok` and no danger banner); a
  failure raises the uncaught `IOError`. -/
  loginOk : Bool
  /-- The product root listing: the anchor `href` values, or the
  exception the root `GET` raises. -/
  root : Except Exc (List Str)
  /-- Remote behaviour of each date's processing in this attempt. -/
  dateEnv : Str → DateEnv

/-- The local variables of one `get_modisfiles` call that the session
loop mutates, plus the ghost fields `processed` (dates whose loop
iteration completed, in order) and `attempts` (sessions started). -/
structure OrchState where
  /-- The requested-window list `dates`. -/
  dates : List Str
  /-- `dates_available` (`None` until the first root listing). -/
  dates_available : Option (List Str)
  /-- The loop variable `date` (`none` while still unbound). -/
  date : Option Str
  /-- `count_reconn_attempts`. -/
  count_reconn_attempts : Nat
  /-- The output directory. -/
  fs : FS
  /-- Ghost: dates whose iteration of the inner `while` completed. -/
  processed : List Str
  /-- Ghost: number of sessions started (each performs network calls). -/
  attempts : Nat
deriving DecidableEq

/-- How one session attempt (the `try` block) ends. -/
inductive StepOut
  /-- The inner `while` emptied the queue and line 394 returns. -/
  | finishedA (s : OrchState)
  /-- A `Timeout`/`ConnectionError` reached the `except` clauses. -/
  | excA (e : Exc) (s : OrchState)
  /-- An uncaught `IOError` aborts the call. -/
  | fatalA (s : OrchState)
deriving DecidableEq

/-- Lines 307-387: the inner `while len(dates_available) > 0` loop.
Each iteration pops the front date (binding `date` and shrinking
`dates_available` first, as `pop(0)` does) and processes it. -/
def innerLoop (check_sizes : Bool) (tile : Str) (env : Str → DateEnv) :
    List Str → OrchState → StepOut
  | [], s => .finishedA s
  | d :: rest, s =>
    match process_date check_sizes tile (env d) s.fs with
    | .ok fs2 _ =>
      innerLoop check_sizes tile env rest
        { s with dates_available := some rest, date := some d, fs := fs2, processed := s.processed ++ [d] }
    | .exc e fs2 =>
      .excA e { s with dates_available := some rest, date := some d, fs := fs2 }
    | .fatal fs2 =>
      .fatalA { s with dates_available := some rest, date := some d, fs := fs2 }

/-- Lines 276-394: one session attempt.  Login (lines 281-297), then
the root listing and catalog filter if `dates_available` is still
`None` (lines 303-305), then the inner date loop. -/
def runAttempt (plan : AttemptPlan) (check_sizes : Bool) (product tile : Str)
    (s : OrchState) : StepOut :=
  let s0 : OrchState := { s with attempts := s.attempts + 1 }
  match plan.login with
  | some e => .excA e s0
  | none =>
    if !plan.loginOk then .fatalA s0
    else
      match s0.dates_available with
      | none =>
        match plan.root with
        | .error e => .excA e s0
        | .ok links =>
          let da := parse_modis_dates links s0.dates product tile (fsNames s0.fs) check_sizes
          innerLoop check_sizes tile plan.dateEnv da { s0 with dates_available := some da }
      | some q => innerLoop check_sizes tile plan.dateEnv q s0

/-- The Python runtime errors the `except` bodies can themselves
raise. -/
inductive HandlerCrash
  /-- `NameError`: the handler reads `date` before any date was popped
  in this call. -/
  | nameError
  /-- `AttributeError`: `dates_available.insert` with `dates_available`
  still `None`. -/
  | attributeError
deriving DecidableEq

/-- Result of running an `except` clause. -/
inductive HandlerOut
  | ok (s : OrchState)
  | crash (c : HandlerCrash) (s : OrchState)
deriving DecidableEq

/-- Lines 396-412: the two `except` clauses.  `Timeout` runs
`dates.insert(0, date)` without touching the counter;
`ConnectionError` increments the counter and runs
`dates_available.insert(0, date)`.  Python resolves the attribute
`insert` on `dates_available` (an `AttributeError` when it is `None`)
before evaluating the argument `date` (a `NameError` when it was never
bound). -/
def handleExc (e : Exc) (s : OrchState) : HandlerOut :=
  match e with
  | .timeout =>
    match s.date with
    | none => .crash .nameError s
    | some d => .ok { s with dates := d :: s.dates }
  | .connErr =>
    let s1 : OrchState := { s with count_reconn_attempts := s.count_reconn_attempts + 1 }
    match s1.dates_available with
    | none => .crash .attributeError s1
    | some q =>
      match s1.date with
      | none => .crash .nameError s1
      | some d => .ok { s1 with dates_available := some (d :: q) }

/-- How a `get_modisfiles` call ends. -/
inductive RunResult
  /-- Line 394: all downloads complete, the call returns. -/
  | done (s : OrchState)
  /-- The final `if count_reconn_attempts == reconnection_attempts`
  guard (line 419) is false and the call returns without raising. -/
  | silentReturn (s : OrchState)
  /-- Line 421: `raise requests.exceptions.ConnectionError`. -/
  | connExhausted (s : OrchState)
  /-- An `except` clause itself raised (`NameError`/`AttributeError`). -/
  | crashed (c : HandlerCrash) (s : OrchState)
  /-- An uncaught `IOError` from login or a bad response. -/
  | fatalErr (s : OrchState)
  /-- The fuel ran out (the source loop would keep iterating). -/
  | outOfFuel (s : OrchState)
  /-- `ValueError` from `time.strptime` while building the window. -/
  | valueError
deriving DecidableEq

/-- Lines 270-421: the session loop `while count_reconn_attempts <=
reconnection_attempts`, the `except` clauses, and the final
exhaustion check after the loop.  `fuel` bounds the number of
iterations interpreted (the source loop itself is unbounded under
repeated `Timeout`s); `i` indexes the attempt's plan. -/
def runLoop (plans : Nat → AttemptPlan) (check_sizes : Bool) (product tile : Str)
    (reconnection_attempts : Nat) : Nat → Nat → OrchState → RunResult
  | 0, _, s => .outOfFuel s
  | fuel + 1, i, s =>
    if s.count_reconn_attempts ≤ reconnection_attempts then
      match runAttempt (plans i) check_sizes product tile s with
      | .finishedA s1 => .done s1
      | .fatalA s1 => .fatalErr s1
      | .excA e s1 =>
        match handleExc e s1 with
        | .crash c s2 => .crashed c s2
        | .ok s2 =>
          runLoop plans check_sizes product tile reconnection_attempts fuel (i + 1) s2
    else
      if s.count_reconn_attempts = reconnection_attempts then .connExhausted s
      else .silentReturn s

/-- Lines 258-262: resolve `doy_end = -1` to 367 (leap year) or 366. -/
def resolve_doy_end (year : Nat) (doy_end : Int) : Int :=
  if doy_end = -1 then (if isleap year then 367 else 366) else doy_end

/-- Lines 264-266: the requested window,
`[strftime("%Y.%m.%d", strptime("%d/%d" % (i, year), "%j/%Y")) for i
in range(doy_start, doy_end)]`; `none` when some `strptime` raises
`ValueError`. -/
def buildDates (year doy_start doy_end : Nat) : Option (List Str) :=
  (List.range' doy_start (doy_end - doy_start)).mapM (fun i =>
    (strptimeJY i year).map (fun ymd => strftimeYmd ymd.1 ymd.2.1 ymd.2.2))

/-- Lines 188-421, `get_modisfiles`: resolve the window, then run the
session loop from the initial state (`dates_available = None`, `date`
unbound, counter 0). -/
def get_modisfiles (plans : Nat → AttemptPlan) (fuel : Nat) (product tile : Str)
    (year doy_start : Nat) (doy_end : Int) (reconnection_attempts : Nat)
    (check_sizes : Bool) (fs0 : FS) : RunResult :=
  let de := resolve_doy_end year doy_end
  match buildDates year doy_start de.toNat with
  | none => .valueError
  | some dates =>
    runLoop plans check_sizes product tile reconnection_attempts fuel 0
      { dates := dates, dates_available := none, date := none,
        count_reconn_attempts := 0, fs := fs0, processed := [], attempts := 0 }

/-- The state a run result carries (the initial state for
`valueError`, which is raised before the loop starts). -/
def RunResult.stateOf (s0 : OrchState) : RunResult → OrchState
  | .done s => s
  | .silentReturn s => s
  | .connExhausted s => s
  | .crashed _ s => s
  | .fatalErr s => s
  | .outOfFuel s => s
  | .valueError => s0

/-- Whether the run completed via line 394. -/
def RunResult.isDone : RunResult → Bool
  | .done _ => true
  | _ => false

/-- Whether the run fell out of the session loop and returned without
raising (line 419's guard evaluated to false). -/
def RunResult.isSilent : RunResult → Bool
  | .silentReturn _ => true
  | _ => false

/-! ## Concrete scenarios used by the claim theorems -/

/-- The sample product of the spec's end-to-end scenario. -/
def productStr : Str := "MOD09GA.005".toList

/-- The sample tile of the spec's end-to-end scenario. -/
def tileStr : Str := "h17v04".toList

/-- Day of year 153 of 2004. -/
def date1 : Str := "2004.06.01".toList

/-- Day of year 154 of 2004. -/
def date2 : Str := "2004.06.02".toList

/-- A date-listing line whose anchor names the tile's data file. -/
def sampleLine : Str := "<a href=\"MOD09GA.A2004153.h17v04.005.hdf\">".toList

/-- The file name the sample line links to. -/
def sampleFname : Str := "MOD09GA.A2004153.h17v04.005.hdf".toList

/-- A placeholder state handed to `RunResult.stateOf` (only consulted
for `valueError` results). -/
def s0dummy : OrchState :=
  { dates := [], dates_available := none, date := none,
    count_reconn_attempts := 0, fs := [], processed := [], attempts := 0 }

/-- A date environment whose every remote call succeeds and whose date
listing links the sample file. -/
def goodEnv : DateEnv :=
  { listing := .ok sampleLine, openExc := none, rfileOk := true,
    remote_size := 2048, chunks := [1024, 1024], streamExc := none }

/-- A date environment whose every remote call succeeds and whose date
listing holds no matching entry. -/
def benignEnv : DateEnv :=
  { listing := .ok [], openExc := none, rfileOk := true,
    remote_size := 0, chunks := [], streamExc := none }

/-- A date environment whose date-listing `GET` raises `e`. -/
def listingErrEnv (e : Exc) : DateEnv :=
  { benignEnv with listing := .error e }

/-- A date environment that raises no exception. -/
def envBenign (e : DateEnv) : Prop :=
  (∃ t, e.listing = .ok t) ∧ e.openExc = none ∧ e.rfileOk = true ∧ e.streamExc = none

/-- Session-loop state holding a ready queue `q` (the state right
after the root listing was parsed into `dates_available`). -/
def initQState (ds0 q : List Str) (fs0 : FS) : OrchState :=
  { dates := ds0, dates_available := some q, date := none,
    count_reconn_attempts := 0, fs := fs0, processed := [], attempts := 0 }

/-- The cumulative effect of the write loop on the `.part` file:
append every non-empty chunk of `cs` in order. -/
def appendAll (fs : FS) (pname : Str) (cs : List Nat) : FS :=
  cs.foldl (fun f ch => if ch = 0 then f else fsAppend f pname ch) fs

/-- Scenario for the Timeout claim: the first session times out while
processing `date1`, every later call succeeds. -/
def plansTimeoutSkip : Nat → AttemptPlan := fun i =>
  { login := none, loginOk := true,
    root := .ok ["2004.06.01/".toList, "2004.06.02/".toList],
    dateEnv := fun d => if i = 0 ∧ d = date1 then listingErrEnv .timeout else goodEnv }

/-- The Timeout-claim run: window `[153, 155)` of 2004, default-style
arguments, empty output directory. -/
def runTimeoutSkip : RunResult :=
  get_modisfiles plansTimeoutSkip 3 productStr tileStr 2004 153 155 200 false []

/-- Scenario for the reconnection-bound claim: every session's date
processing raises `ConnectionError`. -/
def plansAllConnErr : Nat → AttemptPlan := fun _ =>
  { login := none, loginOk := true, root := .ok ["2004.06.01/".toList],
    dateEnv := fun _ => listingErrEnv .connErr }

/-- The reconnection-bound run with `reconnection_attempts = 2`. -/
def runAllConnErr : RunResult :=
  get_modisfiles plansAllConnErr 10 productStr tileStr 2004 153 155 2 false []

/-- Scenario for the resume claim: in the first session the dates of
`q.drop N` raise `ConnectionError` on their listing `GET`, all other
processing succeeds; later sessions succeed everywhere. -/
def plansResume (q : List Str) (N : Nat) : Nat → AttemptPlan := fun i =>
  { login := none, loginOk := true, root := .ok [],
    dateEnv := fun d =>
      if i = 0 ∧ d ∈ q.drop N then listingErrEnv .connErr else benignEnv }

/-- The local directory of the atomicity and size-check claims: the
sample file is present with a single 1024-byte chunk. -/
def fsPre : FS := [(sampleFname, [1024])]

/-- Remote file of size 2048 streamed in four 512-byte chunks, the
stream raising `Timeout` after the second chunk. -/
def envMid : DateEnv :=
  { listing := .ok sampleLine, openExc := none, rfileOk := true,
    remote_size := 2048, chunks := [512, 512, 512, 512], streamExc := some (2, .timeout) }

/-- The same remote file with an undisturbed stream. -/
def envFull : DateEnv :=
  { envMid with streamExc := none }

/-- Scenario for the empty-window claim: a normal session against a
root listing with no entries. -/
def plansEmptyWindow : Nat → AttemptPlan := fun _ =>
  { login := none, loginOk := true, root := .ok [], dateEnv := fun _ => goodEnv }

/-- The empty-window run: `doy_start = 200 > 100 = doy_end`. -/
def runEmptyWindow : RunResult :=
  get_modisfiles plansEmptyWindow 3 productStr tileStr 2004 200 100 200 false []

/-- Scenario for the handler-precondition claim: the very first login
`GET` raises `ConnectionError`. -/
def plansLoginConnErr : Nat → AttemptPlan := fun _ =>
  { login := some .connErr, loginOk := true, root := .ok [], dateEnv := fun _ => goodEnv }

/-- The run whose first login raises `ConnectionError`. -/
def runLoginConnErr : RunResult :=
  get_modisfiles plansLoginConnErr 3 productStr tileStr 2004 153 155 200 false []

/-- Scenario for the handler-precondition claim: the initial root
listing `GET` raises `Timeout`. -/
def plansRootTimeout : Nat → AttemptPlan := fun _ =>
  { login := none, loginOk := true, root := .error .timeout, dateEnv := fun _ => goodEnv }

/-- The run whose initial root listing raises `Timeout`. -/
def runRootTimeout : RunResult :=
  get_modisfiles plansRootTimeout 3 productStr tileStr 2004 153 155 200 false []

/-- A legacy local file of the sample product/tile for day 153 of
2004, as named by the MODIS archive. -/
def localLegacyFile : Str := "MOD09GA.A2004153.h17v04.005.2008245123456.hdf".toList

/-! ## Helper lemmas -/

/-- `buildDates` of an empty window is the empty list. -/
theorem buildDates_of_le (year doy_start doy_end : Nat) (h : doy_end ≤ doy_start) :
    buildDates year doy_start doy_end = some [] := by
  unfold buildDates
  rw [Nat.sub_eq_zero_of_le h]
  rfl

/-- `parse_modis_dates` of an empty request list is empty. -/
theorem parse_modis_dates_nil (links : List Str) (product tile : Str)
    (listdir : List Str) (check_sizes : Bool) :
    parse_modis_dates links [] product tile listdir check_sizes = [] := by
  simp [parse_modis_dates, sortedSet]

/-- Erasing a name makes it unbound. -/
theorem lookupFS_fsErase_self (fs : FS) (n : Str) :
    lookupFS (fsErase fs n) n = none := by
  induction fs with
  | nil => rfl
  | cons e fs ih =>
    obtain ⟨a, b⟩ := e
    by_cases ha : a = n
    · simpa [fsErase, ha] using ih
    · simp [fsErase, ha, lookupFS, ih]

/-- Erasing a name leaves the other names untouched. -/
theorem lookupFS_fsErase_ne (fs : FS) (n g : Str) (h : g ≠ n) :
    lookupFS (fsErase fs n) g = lookupFS fs g := by
  induction fs with
  | nil => rfl
  | cons e fs ih =>
    obtain ⟨a, b⟩ := e
    by_cases ha : a = n
    · subst ha
      have hag : ¬ a = g := fun hh => h hh.symm
      simp [fsErase, lookupFS, hag, ih]
    · simp only [fsErase, if_neg ha, lookupFS]
      by_cases hag : a = g
      · simp [hag]
      · simp [hag, ih]

/-- Lookup after a write: the written name holds the new content, all
other names are untouched. -/
theorem lookupFS_fsSet (fs : FS) (n : Str) (c : Content) (g : Str) :
    lookupFS (fsSet fs n c) g = if n = g then some c else lookupFS fs g := by
  simp only [fsSet, lookupFS]
  by_cases h : n = g
  · simp [h]
  · simp [h, lookupFS_fsErase_ne fs n g (fun hh => h hh.symm)]

/-- The write loop leaves names other than the `.part` file untouched. -/
theorem lookupFS_appendAll_ne (fs : FS) (pname g : Str) (cs : List Nat) (h : g ≠ pname) :
    lookupFS (appendAll fs pname cs) g = lookupFS fs g := by
  induction cs generalizing fs with
  | nil => rfl
  | cons ch cs ih =>
    simp only [appendAll, List.foldl_cons] at *
    rw [ih]
    by_cases hch : ch = 0
    · simp [hch]
    · rw [if_neg hch, fsAppend, lookupFS_fsSet, if_neg (fun hh => h hh.symm)]

/-- The write loop appends exactly the non-empty chunks to the `.part`
file's content. -/
theorem lookupFS_appendAll_self (fs : FS) (pname : Str) (cs : List Nat) (c0 : Content)
    (h : lookupFS fs pname = some c0) :
    lookupFS (appendAll fs pname cs) pname
      = some (c0 ++ cs.filter (fun ch => decide (ch ≠ 0))) := by
  induction cs generalizing fs c0 with
  | nil => simpa [appendAll] using h
  | cons ch cs ih =>
    by_cases hch : ch = 0
    · subst hch
      simpa [appendAll, List.foldl_cons] using ih fs c0 h
    · have hstep : lookupFS (fsAppend fs pname ch) pname = some (c0 ++ [ch]) := by
        rw [fsAppend, h, lookupFS_fsSet, if_pos rfl]
        rfl
      have := ih (fsAppend fs pname ch) (c0 ++ [ch]) hstep
      simp only [appendAll, List.foldl_cons, if_neg hch] at *
      rw [this]
      simp [hch, List.append_assoc]

/-- An interrupted write loop stops with the chunks streamed so far. -/
theorem writeChunks_exc (pname : Str) (fs : FS) (chunks : List Nat) (k : Nat) (e : Exc)
    (h : k < chunks.length) :
    writeChunks pname fs chunks (some (k, e))
      = (appendAll fs pname (chunks.take k), some e) := by
  induction chunks generalizing fs k with
  | nil => exact absurd h (by simp)
  | cons ch rest ih =>
    cases k with
    | zero => rfl
    | succ k =>
      simp only [writeChunks]
      rw [ih _ k (by simpa using h)]
      simp [appendAll]

/-- An undisturbed write loop writes every chunk. -/
theorem writeChunks_none (pname : Str) (fs : FS) (chunks : List Nat) :
    writeChunks pname fs chunks none = (appendAll fs pname chunks, none) := by
  induction chunks generalizing fs with
  | nil => rfl
  | cons ch rest ih =>
    simp only [writeChunks]
    rw [ih]
    simp [appendAll]

/-- A file name never equals its own `.part` name. -/
theorem self_ne_append_part (fname : Str) : fname ≠ fname ++ partSuffix := by
  intro h
  have := congrArg List.length h
  simp [partSuffix] at this

/-- A download interrupted after `k` chunks: the `.part` file was
opened and holds the streamed prefix, the exception propagates. -/
theorem download_file_mid (fs : FS) (fname : Str) (chunks : List Nat) (k : Nat) (e : Exc)
    (h : k < chunks.length) :
    download_file fs fname chunks (some (k, e))
      = (appendAll (fsSet fs (fname ++ partSuffix) []) (fname ++ partSuffix)
          (chunks.take k), some e) := by
  simp only [download_file]
  rw [writeChunks_exc _ _ _ _ _ h]

/-- An undisturbed download: the `.part` file is fully written and then
renamed onto the final name. -/
theorem download_file_complete (fs : FS) (fname : Str) (chunks : List Nat) :
    download_file fs fname chunks none
      = (fsRename (appendAll (fsSet fs (fname ++ partSuffix) []) (fname ++ partSuffix) chunks)
          (fname ++ partSuffix) fname, none) := by
  simp only [download_file]
  rw [writeChunks_none]

/-- Final state of an undisturbed download: the full filtered content
sits under the final name and the `.part` name is gone. -/
theorem download_file_complete_lookup (fs : FS) (fname : Str) (chunks : List Nat) :
    ∃ fs3, download_file fs fname chunks none = (fs3, none)
      ∧ lookupFS fs3 fname = some (chunks.filter (fun ch => decide (ch ≠ 0)))
      ∧ lookupFS fs3 (fname ++ partSuffix) = none := by
  have hpart : lookupFS (fsSet fs (fname ++ partSuffix) []) (fname ++ partSuffix) = some [] := by
    rw [lookupFS_fsSet, if_pos rfl]
  have hfull := lookupFS_appendAll_self (fsSet fs (fname ++ partSuffix) [])
    (fname ++ partSuffix) chunks [] hpart
  refine ⟨_, download_file_complete fs fname chunks, ?_, ?_⟩
  · rw [fsRename, hfull]
    simp only [List.nil_append]
    rw [lookupFS_fsSet, if_pos rfl]
  · rw [fsRename, hfull]
    simp only [List.nil_append]
    rw [lookupFS_fsSet, if_neg (fun hh => self_ne_append_part fname hh),
      lookupFS_fsErase_self]

/-- A benign environment lets one date's processing complete without
raising. -/
theorem process_date_benign (cs : Bool) (tile : Str) (env : DateEnv) (fs : FS)
    (h : envBenign env) :
    ∃ fs2 out, process_date cs tile env fs = .ok fs2 out := by
  obtain ⟨⟨t, hl⟩, ho, hr, hst⟩ := h
  cases hsel : selectLine tile (splitOnChar '\n' t) with
  | none => exact ⟨fs, .noFile, by simp only [process_date, hl, hsel]⟩
  | some line =>
    obtain ⟨fs3, hdl, -, -⟩ := download_file_complete_lookup fs (extractFname line) env.chunks
    by_cases hex : (lookupFS fs (extractFname line)).isSome = true
    · cases cs with
      | false =>
        refine ⟨fs, .skipped (extractFname line), ?_⟩
        simp only [process_date, hl, hsel, hex, if_true, Bool.false_eq_true, if_false]
      | true =>
        by_cases hsz : env.remote_size = ((lookupFS fs (extractFname line)).getD []).sum
        · refine ⟨fs, .skipped (extractFname line), ?_⟩
          simp only [process_date, hl, hsel, hex, if_true, ho, hr, Bool.not_true,
            Bool.false_eq_true, if_false, hsz, if_pos rfl]
        · refine ⟨fs3, .downloaded (extractFname line), ?_⟩
          simp only [process_date, hl, hsel, hex, if_true, ho, hr, Bool.not_true,
            Bool.false_eq_true, if_false, if_neg hsz, hst, hdl]
    · refine ⟨fs3, .downloaded (extractFname line), ?_⟩
      simp only [process_date, hl, hsel, hex, Bool.false_eq_true, if_false, ho, hr,
        Bool.not_true, hst, hdl]

/-- A queue of dates with benign environments is processed to the end:
the inner loop completes, having appended the whole queue to the
processed log and left the window list, the counter and the session
count untouched. -/
theorem innerLoop_benign (cs : Bool) (tile : Str) (env : Str → DateEnv) (q : List Str) :
    ∀ s : OrchState, (∀ d ∈ q, envBenign (env d)) →
    ∃ s1, innerLoop cs tile env q s = .finishedA s1
      ∧ s1.dates = s.dates ∧ s1.processed = s.processed ++ q
      ∧ s1.count_reconn_attempts = s.count_reconn_attempts
      ∧ s1.attempts = s.attempts := by
  induction q with
  | nil => exact fun s _ => ⟨s, rfl, rfl, by simp, rfl, rfl⟩
  | cons d rest ih =>
    intro s h
    obtain ⟨fs2, out, hpd⟩ := process_date_benign cs tile (env d) s.fs (h d (List.mem_cons_self d rest))
    obtain ⟨s2, hrec, h1, h2, h3, h4⟩ :=
      ih { s with dates_available := some rest, date := some d, fs := fs2, processed := s.processed ++ [d] } (fun x hx => h x (List.mem_cons_of_mem d hx))
    refine ⟨s2, ?_, ?_, ?_, ?_, ?_⟩
    · simp only [innerLoop, hpd]
      exact hrec
    · simpa using h1
    · rw [h2]; simp
    · simpa using h3
    · simpa using h4

/-- The inner loop on `q1 ++ d :: q2`, where every date of `q1` is
benign and `d`'s listing `GET` raises `e`: the `q1` dates are
processed, `d` is popped (shrinking the queue to `q2` and binding
`date` to `d`), and the exception escapes. -/
theorem innerLoop_failAt (cs : Bool) (tile : Str) (env : Str → DateEnv)
    (q1 : List Str) (d : Str) (q2 : List Str) (e : Exc)
    (hd : (env d).listing = .error e) :
    ∀ s : OrchState, (∀ x ∈ q1, envBenign (env x)) →
    ∃ fsX, innerLoop cs tile env (q1 ++ d :: q2) s
      = .excA e ⟨s.dates, some q2, some d, s.count_reconn_attempts, fsX,
          s.processed ++ q1, s.attempts⟩ := by
  induction q1 with
  | nil =>
    intro s _
    refine ⟨s.fs, ?_⟩
    have hpd : process_date cs tile (env d) s.fs = .exc e s.fs := by
      simp only [process_date, hd]
    simp only [List.nil_append, innerLoop, hpd, List.append_nil]
  | cons x q1' ih =>
    intro s h
    obtain ⟨fs2, out, hpd⟩ := process_date_benign cs tile (env x) s.fs (h x (List.mem_cons_self x q1'))
    obtain ⟨fsX, hrec⟩ :=
      ih { s with dates_available := some (q1' ++ d :: q2), date := some x, fs := fs2, processed := s.processed ++ [x] } (fun y hy => h y (List.mem_cons_of_mem x hy))
    refine ⟨fsX, ?_⟩
    simp only [List.cons_append, innerLoop, hpd, List.append_eq]
    rw [hrec]
    simp

/-- A session attempt that logs in successfully with the queue already
built runs the inner loop on that queue. -/
theorem runAttempt_queue (plan : AttemptPlan) (cs : Bool) (product tile : Str)
    (s : OrchState) (q : List Str)
    (hlg : plan.login = none) (hok : plan.loginOk = true)
    (hda : s.dates_available = some q) :
    runAttempt plan cs product tile s
      = innerLoop cs tile plan.dateEnv q { s with attempts := s.attempts + 1 } := by
  simp only [runAttempt, hlg, hok, Bool.not_true, Bool.false_eq_true, if_false, hda]

/-- One session-loop iteration whose attempt raises a handled
exception continues with the handler's state. -/
theorem runLoop_step (plans : Nat → AttemptPlan) (cs : Bool) (product tile : Str)
    (R fuel i : Nat) (s s1 s2 : OrchState) (e : Exc)
    (hc : s.count_reconn_attempts ≤ R)
    (ha : runAttempt (plans i) cs product tile s = .excA e s1)
    (hh : handleExc e s1 = .ok s2) :
    runLoop plans cs product tile R (fuel + 1) i s
      = runLoop plans cs product tile R fuel (i + 1) s2 := by
  simp only [runLoop]
  rw [if_pos hc, ha]
  simp only [hh]

/-- One session-loop iteration whose attempt finishes the queue
returns. -/
theorem runLoop_step_done (plans : Nat → AttemptPlan) (cs : Bool) (product tile : Str)
    (R fuel i : Nat) (s s1 : OrchState)
    (hc : s.count_reconn_attempts ≤ R)
    (ha : runAttempt (plans i) cs product tile s = .finishedA s1) :
    runLoop plans cs product tile R (fuel + 1) i s = .done s1 := by
  simp only [runLoop]
  rw [if_pos hc, ha]

/-- With size-verification enabled the catalog filter is exactly the
sorted intersection: both sides are sorted duplicate-free lists with
the same members. -/
theorem parse_modis_dates_true_eq (links dates : List Str) (product tile : Str)
    (listdir : List Str) :
    parse_modis_dates links dates product tile listdir true
      = specSortedInter (links.map List.dropLast) dates := by
  unfold parse_modis_dates specSortedInter sortedSet
  simp only [if_pos rfl]
  have hperm : List.Perm
      (List.insertionSort (· ≤ ·) ((dates.filter (· ∈ links.map List.dropLast)).dedup))
      (List.insertionSort (· ≤ ·) (((links.map List.dropLast).filter (· ∈ dates)).dedup)) := by
    refine ((List.perm_insertionSort _ _).trans ?_).trans (List.perm_insertionSort _ _).symm
    refine (List.perm_ext_iff_of_nodup (List.nodup_dedup _) (List.nodup_dedup _)).mpr ?_
    intro x
    simp only [List.mem_dedup, List.mem_filter, decide_eq_true_eq]
    exact ⟨fun hx => ⟨hx.2, hx.1⟩, fun hx => ⟨hx.2, hx.1⟩⟩
  exact List.eq_of_perm_of_sorted hperm
    (List.sorted_insertionSort _ _) (List.sorted_insertionSort _ _)

/-- `mapM` over `Option` of an everywhere-defined function is the
plain map. -/
theorem mapM_option_eq_map {α β : Type} (f : α → Option β) (g : α → β) (l : List α)
    (h : ∀ x ∈ l, f x = some (g x)) : l.mapM f = some (l.map g) := by
  induction l with
  | nil => rfl
  | cons a l ih =>
    rw [List.mapM_cons, h a (List.mem_cons_self a l),
      ih (fun x hx => h x (List.mem_cons_of_mem a hx))]
    rfl

/-- The resolved `doy_end = -1` value as a natural number. -/
theorem resolve_doy_end_toNat (year : Nat) :
    (resolve_doy_end year (-1)).toNat = daysInYear year + 1 := by
  unfold resolve_doy_end daysInYear
  cases isleap year <;> simp

/-- Python's substring test holds exactly when the haystack decomposes
around the needle. -/
theorem isSubstrOf_iff (n h : Str) :
    isSubstrOf n h = true ↔ ∃ a b, h = a ++ n ++ b := by
  induction h with
  | nil =>
    simp only [isSubstrOf, List.isEmpty_iff]
    constructor
    · rintro rfl; exact ⟨[], [], rfl⟩
    · rintro ⟨a, b, hab⟩
      rcases List.append_eq_nil.mp (List.append_eq_nil.mp hab.symm).1 with ⟨-, hn⟩
      exact hn
  | cons c cs ih =>
    simp only [isSubstrOf, Bool.or_eq_true, List.isPrefixOf_iff_prefix, ih]
    constructor
    · rintro (⟨t, ht⟩ | ⟨a, b, hab⟩)
      · exact ⟨[], t, by simp [ht]⟩
      · exact ⟨c :: a, b, by simp [hab]⟩
    · rintro ⟨a, b, hab⟩
      cases a with
      | nil =>
        exact Or.inl ⟨b, by simpa using hab.symm⟩
      | cons a0 a' =>
        right
        simp only [List.cons_append, List.cons.injEq] at hab
        exact ⟨a', b, hab.2⟩

/-- A successful `find?` splits the list at the first hit: everything
before it fails the predicate. -/
theorem find?_eq_some_split {α : Type} (p : α → Bool) (l : List α) (a : α)
    (h : l.find? p = some a) :
    ∃ pre post, l = pre ++ a :: post ∧ (∀ x ∈ pre, p x = false) ∧ p a = true := by
  induction l with
  | nil => simp [List.find?] at h
  | cons x xs ih =>
    rw [List.find?] at h
    cases hp : p x with
    | true =>
      rw [hp] at h
      obtain rfl : x = a := Option.some.inj h
      exact ⟨[], xs, rfl, by simp, hp⟩
    | false =>
      rw [hp] at h
      obtain ⟨pre, post, h1, h2, h3⟩ := ih h
      exact ⟨x :: pre, post, by simp [h1], by
        intro y hy
        rcases List.mem_cons.mp hy with rfl | hy'
        · exact hp
        · exact h2 y hy', h3⟩

/-- A date listing with no matching line is logged and the date's
iteration completes with nothing changed. -/
theorem process_date_noFile (cs : Bool) (tile : Str) (env : DateEnv) (fs : FS) (text : Str)
    (hl : env.listing = .ok text)
    (hno : ∀ l ∈ splitOnChar '\n' text, matchLine tile l = false) :
    process_date cs tile env fs = .ok fs .noFile := by
  have hsel : selectLine tile (splitOnChar '\n' text) = none := by
    refine List.find?_eq_none.mpr ?_
    intro x hx
    simp [hno x hx]
  simp only [process_date, hl, hsel]

/-- The `writeChunks` loop with an exception point at or beyond the
stream's end never raises: every chunk is written. -/
theorem writeChunks_exc_ge (pname : Str) (fs : FS) (chunks : List Nat) (k : Nat) (e : Exc)
    (h : chunks.length ≤ k) :
    writeChunks pname fs chunks (some (k, e)) = (appendAll fs pname chunks, none) := by
  induction chunks generalizing fs k with
  | nil => rfl
  | cons ch rest ih =>
    cases k with
    | zero => exact absurd h (by simp)
    | succ k =>
      simp only [writeChunks]
      rw [ih _ k (by simpa using h)]
      simp [appendAll]

/-- A rename leaves names other than its source and target untouched. -/
theorem lookupFS_fsRename_ne (fs : FS) (src dst g : Str)
    (h1 : g ≠ src) (h2 : g ≠ dst) :
    lookupFS (fsRename fs src dst) g = lookupFS fs g := by
  unfold fsRename
  cases lookupFS fs src with
  | none => rfl
  | some c =>
    rw [lookupFS_fsSet, if_neg (fun hh => h2 hh.symm), lookupFS_fsErase_ne _ _ _ h1]

/-- A download, however it ends, touches only the final name and its
`.part` name. -/
theorem download_file_fs_confined (fs : FS) (fname : Str) (chunks : List Nat)
    (plan : Option (Nat × Exc)) (g : Str)
    (h1 : g ≠ fname) (h2 : g ≠ fname ++ partSuffix) :
    lookupFS (download_file fs fname chunks plan).1 g = lookupFS fs g := by
  have hbase : ∀ cs2 : List Nat,
      lookupFS (appendAll (fsSet fs (fname ++ partSuffix) []) (fname ++ partSuffix) cs2) g
        = lookupFS fs g := by
    intro cs2
    rw [lookupFS_appendAll_ne _ _ _ _ h2, lookupFS_fsSet, if_neg (fun hh => h2 hh.symm)]
  rcases plan with - | ⟨k, e⟩
  · rw [download_file_complete]
    rw [lookupFS_fsRename_ne _ _ _ _ h2 h1]
    exact hbase chunks
  · by_cases hk : k < chunks.length
    · rw [download_file_mid fs fname chunks k e hk]
      exact hbase (chunks.take k)
    · simp only [download_file]
      rw [writeChunks_exc_ge _ _ _ _ _ (Nat.le_of_not_lt hk)]
      rw [lookupFS_fsRename_ne _ _ _ _ h2 h1]
      exact hbase chunks

/-- A date iteration that completes after selecting a line yields the
selected file (skipped or downloaded) and touches no other name. -/
theorem process_date_fs_confined (cs : Bool) (tile : Str) (env : DateEnv) (fs fs2 : FS)
    (text line : Str) (out : DateOutcome)
    (hl : env.listing = .ok text)
    (hsel : selectLine tile (splitOnChar '\n' text) = some line)
    (hok : process_date cs tile env fs = .ok fs2 out) :
    (out = .skipped (extractFname line) ∨ out = .downloaded (extractFname line))
    ∧ ∀ g, g ≠ extractFname line → g ≠ extractFname line ++ partSuffix →
        lookupFS fs2 g = lookupFS fs g := by
  rw [process_date, hl] at hok
  simp only [hsel] at hok
  by_cases hex : (lookupFS fs (extractFname line)).isSome = true
  · simp only [hex, if_true] at hok
    cases cs with
    | false =>
      simp only [Bool.false_eq_true, if_false] at hok
      obtain ⟨rfl, rfl⟩ := PDResult.ok.inj hok
      exact ⟨Or.inl rfl, fun g _ _ => rfl⟩
    | true =>
      simp only [if_true] at hok
      cases ho : env.openExc with
      | some e => rw [ho] at hok; exact absurd hok (by simp)
      | none =>
        rw [ho] at hok
        cases hr : env.rfileOk with
        | false => rw [hr] at hok; exact absurd hok (by simp)
        | true =>
          rw [hr] at hok
          simp only [Bool.not_true, Bool.false_eq_true, if_false] at hok
          by_cases hsz : env.remote_size = ((lookupFS fs (extractFname line)).getD []).sum
          · rw [if_pos hsz] at hok
            obtain ⟨rfl, rfl⟩ := PDResult.ok.inj hok
            exact ⟨Or.inl rfl, fun g _ _ => rfl⟩
          · rw [if_neg hsz] at hok
            rcases hdf : download_file fs (extractFname line) env.chunks env.streamExc with
              ⟨fs', r⟩
            rw [hdf] at hok
            cases r with
            | some e => exact absurd hok (by simp)
            | none =>
              obtain ⟨rfl, rfl⟩ := PDResult.ok.inj hok
              refine ⟨Or.inr rfl, fun g hg1 hg2 => ?_⟩
              have := download_file_fs_confined fs (extractFname line) env.chunks
                env.streamExc g hg1 hg2
              rwa [hdf] at this
  · simp only [hex, Bool.false_eq_true, if_false] at hok
    cases ho : env.openExc with
    | some e => rw [ho] at hok; exact absurd hok (by simp)
    | none =>
      rw [ho] at hok
      cases hr : env.rfileOk with
      | false => rw [hr] at hok; exact absurd hok (by simp)
      | true =>
        rw [hr] at hok
        simp only [Bool.not_true, Bool.false_eq_true, if_false] at hok
        rcases hdf : download_file fs (extractFname line) env.chunks env.streamExc with
          ⟨fs', r⟩
        rw [hdf] at hok
        cases r with
        | some e => exact absurd hok (by simp)
        | none =>
          obtain ⟨rfl, rfl⟩ := PDResult.ok.inj hok
          refine ⟨Or.inr rfl, fun g hg1 hg2 => ?_⟩
          have := download_file_fs_confined fs (extractFname line) env.chunks
            env.streamExc g hg1 hg2
          rwa [hdf] at this

/-- Every month has at most 31 days. -/
theorem daysInMonth_le_31 (y m : Nat) : daysInMonth y m ≤ 31 := by
  unfold daysInMonth
  split_ifs <;> omega

/-- Days before the next month accumulate one month's length. -/
theorem daysBeforeMonth_succ (y m : Nat) (h : 1 ≤ m) :
    daysBeforeMonth y (m + 1) = daysBeforeMonth y m + daysInMonth y m := by
  cases m with
  | zero => exact absurd h (by omega)
  | succ k => rfl

/-- Days before month 13 are the whole year. -/
theorem daysBeforeMonth_13 (y : Nat) : daysBeforeMonth y 13 = daysInYear y := by
  cases h : isleap y <;> simp [daysBeforeMonth, daysInMonth, daysInYear, h]

/-- The decimal digit characters decode back to their values. -/
theorem digitChar_toNat (k : Nat) (h : k < 10) : (digitChar k).toNat = 48 + k := by
  interval_cases k <;> rfl

/-- Appending one character multiplies the decoded value by ten. -/
theorem strToNat_append_singleton (s : Str) (c : Char) :
    strToNat (s ++ [c]) = strToNat s * 10 + (c.toNat - '0'.toNat) := by
  unfold strToNat
  rw [List.foldl_append]
  rfl

/-- The digit rendering decodes back to the rendered number. -/
theorem strToNat_natDigitsAux : ∀ fuel n, n ≤ fuel → strToNat (natDigitsAux fuel n) = n := by
  intro fuel
  induction fuel with
  | zero =>
    intro n hn
    obtain rfl : n = 0 := by omega
    rfl
  | succ fuel ih =>
    intro n hn
    unfold natDigitsAux
    by_cases h10 : n < 10
    · rw [if_pos h10]
      show 0 * 10 + ((digitChar n).toNat - '0'.toNat) = n
      rw [digitChar_toNat n h10, show '0'.toNat = 48 from rfl]
      omega
    · rw [if_neg h10]
      rw [strToNat_append_singleton, ih (n / 10) (by omega)]
      rw [digitChar_toNat (n % 10) (by omega), show '0'.toNat = 48 from rfl]
      omega

/-- `strToNat` of the plain digit rendering. -/
theorem strToNat_natDigits (n : Nat) : strToNat (natDigits n) = n :=
  strToNat_natDigitsAux n n (le_refl n)

/-- Leading zeros do not change the decoded value. -/
theorem strToNat_replicate_zeros (j : Nat) (s : Str) :
    strToNat (List.replicate j '0' ++ s) = strToNat s := by
  unfold strToNat
  rw [List.foldl_append]
  have : ∀ j, (List.replicate j '0').foldl (fun a c => a * 10 + (c.toNat - '0'.toNat)) 0 = 0 := by
    intro j
    induction j with
    | zero => rfl
    | succ j ih => simpa [List.replicate_succ] using ih
  rw [this j]

/-- The zero-padded rendering decodes back to the rendered number. -/
theorem strToNat_padNum (w n : Nat) : strToNat (padNum w n) = n := by
  unfold padNum
  rw [strToNat_replicate_zeros, strToNat_natDigits]

/-- A number below `10 ^ k` renders in at most `k` digits. -/
theorem length_natDigitsAux_le : ∀ fuel k n, 1 ≤ k → n < 10 ^ k →
    (natDigitsAux fuel n).length ≤ k := by
  intro fuel
  induction fuel with
  | zero =>
    intro k n hk _
    simpa [natDigitsAux] using hk
  | succ fuel ih =>
    intro k n hk hn
    unfold natDigitsAux
    by_cases h10 : n < 10
    · rw [if_pos h10]; simpa using hk
    · rw [if_neg h10]
      have hk2 : 2 ≤ k := by
        by_contra hlt
        have hk1 : k = 1 := by omega
        rw [hk1] at hn
        simp at hn
        omega
      have hdiv : n / 10 < 10 ^ (k - 1) := by
        refine Nat.div_lt_of_lt_mul ?_
        have hpow : 10 * 10 ^ (k - 1) = 10 ^ k := by
          conv_rhs => rw [show k = (k - 1) + 1 by omega]
          rw [pow_succ, mul_comm]
        rw [hpow]
        exact hn
      have := ih (k - 1) (n / 10) (by omega) hdiv
      simp only [List.length_append, List.length_cons, List.length_nil]
      omega

/-- The zero-padded rendering of a number below `10 ^ w` has exactly
`w` characters. -/
theorem length_padNum (w n : Nat) (hw : 1 ≤ w) (h : n < 10 ^ w) :
    (padNum w n).length = w := by
  have hle : (natDigits n).length ≤ w := length_natDigitsAux_le n w n hw h
  unfold padNum
  rw [List.length_append, List.length_replicate]
  omega

/-- The `"%Y.%m.%d"` rendering is injective on four-digit years and
two-digit months and days. -/
theorem strftimeYmd_inj (y m d y' m' d' : Nat)
    (hy : y < 10000) (hy' : y' < 10000) (hm : m < 100) (hm' : m' < 100)
    (_hd : d < 100) (_hd' : d' < 100)
    (h : strftimeYmd y m d = strftimeYmd y' m' d') : y = y' ∧ m = m' ∧ d = d' := by
  unfold strftimeYmd at h
  have hl4 : (padNum 4 y).length = 4 := length_padNum 4 y (by norm_num) (by simpa using hy)
  have hl4' : (padNum 4 y').length = 4 := length_padNum 4 y' (by norm_num) (by simpa using hy')
  have hl2m : (padNum 2 m).length = 2 := length_padNum 2 m (by norm_num) (by simpa using hm)
  have hl2m' : (padNum 2 m').length = 2 := length_padNum 2 m' (by norm_num) (by simpa using hm')
  have hl7 : (padNum 4 y ++ '.' :: padNum 2 m).length
      = (padNum 4 y' ++ '.' :: padNum 2 m').length := by
    simp [hl4, hl4', hl2m, hl2m']
  obtain ⟨h1, h2⟩ := List.append_inj h hl7
  obtain ⟨h3, h4⟩ := List.append_inj h1 (by rw [hl4, hl4'])
  have hyy : y = y' := by
    have := congrArg strToNat h3
    rwa [strToNat_padNum, strToNat_padNum] at this
  obtain ⟨-, h5⟩ := List.cons.inj h4
  have hmm : m = m' := by
    have := congrArg strToNat h5
    rwa [strToNat_padNum, strToNat_padNum] at this
  obtain ⟨-, h6⟩ := List.cons.inj h2
  have hdd : d = d' := by
    have := congrArg strToNat h6
    rwa [strToNat_padNum, strToNat_padNum] at this
  exact ⟨hyy, hmm, hdd⟩

/-- The month walk of `doyToMD` lands on a valid month/day pair whose
day-of-year is the requested one. -/
theorem doyToMD_spec (y : Nat) : ∀ fuel m r, 1 ≤ m → 1 ≤ r →
    daysBeforeMonth y m + r ≤ daysBeforeMonth y (m + fuel) →
    1 ≤ (doyToMD y fuel m r).1 ∧ (doyToMD y fuel m r).1 ≤ m + fuel
      ∧ 1 ≤ (doyToMD y fuel m r).2
      ∧ (doyToMD y fuel m r).2 ≤ daysInMonth y (doyToMD y fuel m r).1
      ∧ daysBeforeMonth y (doyToMD y fuel m r).1 + (doyToMD y fuel m r).2
          = daysBeforeMonth y m + r := by
  intro fuel
  induction fuel with
  | zero =>
    intro m r _ hr hb
    simp only [Nat.add_zero] at hb
    omega
  | succ fuel ih =>
    intro m r hm hr hb
    by_cases hrm : r ≤ daysInMonth y m
    · simp only [doyToMD, if_pos hrm]
      exact ⟨hm, by omega, hr, hrm, by trivial⟩
    · simp only [doyToMD, if_neg hrm]
      have hsucc := daysBeforeMonth_succ y m hm
      have hb' : daysBeforeMonth y (m + 1) + (r - daysInMonth y m)
          ≤ daysBeforeMonth y (m + 1 + fuel) := by
        rw [show m + 1 + fuel = m + (fuel + 1) by omega]
        omega
      have := ih (m + 1) (r - daysInMonth y m) (by omega) (by omega) hb'
      refine ⟨this.1, by omega, this.2.2.1, this.2.2.2.1, ?_⟩
      rw [this.2.2.2.2]
      omega

/-- Day-of-year `i` of a plain year converts to a valid calendar date
of that year whose day-of-year is `i` again. -/
theorem doyToDate_spec (y i : Nat) (h1 : 1 ≤ i) (h2 : i ≤ daysInYear y) :
    (doyToDate y i).1 = y
      ∧ 1 ≤ (doyToDate y i).2.1 ∧ (doyToDate y i).2.1 ≤ 13
      ∧ 1 ≤ (doyToDate y i).2.2 ∧ (doyToDate y i).2.2 ≤ 31
      ∧ daysBeforeMonth y (doyToDate y i).2.1 + (doyToDate y i).2.2 = i := by
  have h13 : daysBeforeMonth y (1 + 12) = daysInYear y := daysBeforeMonth_13 y
  have hspec := doyToMD_spec y 12 1 i (le_refl 1) h1
    (by rw [h13, show daysBeforeMonth y 1 = 0 from rfl]; omega)
  unfold doyToDate
  rw [if_pos h2]
  refine ⟨by trivial, hspec.1,
    by show (doyToMD y 12 1 i).1 ≤ 13; have := hspec.2.1; omega, hspec.2.2.1,
    le_trans hspec.2.2.2.1 (daysInMonth_le_31 y _), ?_⟩
  have h5 := hspec.2.2.2.2
  rw [show daysBeforeMonth y 1 = 0 from rfl] at h5
  simpa using h5

/-! ## Claim theorems -/

/-- C1: the claim says a `Timeout` raised while a date is processed
reinserts that date at the front of the remaining queue and retries it
without incrementing the reconnection counter, so the date is neither
skipped nor counted.  The code instead runs `dates.insert(0, date)` —
the requested-window list, which is never read again once
`dates_available` has been computed — so the in-flight date is lost.
In the run below the first session times out while processing `date1`
and the second session succeeds: the run completes having processed
only `date2`; `date1` was skipped (it sits, twice, in the dead `dates`
list) even though the counter was indeed never incremented. -/
theorem C1_timeout_skips_inflight_date :
    runTimeoutSkip.isDone = true
    ∧ (runTimeoutSkip.stateOf s0dummy).processed = [date2]
    ∧ date1 ∉ (runTimeoutSkip.stateOf s0dummy).processed
    ∧ (runTimeoutSkip.stateOf s0dummy).dates = [date1, date1, date2]
    ∧ (runTimeoutSkip.stateOf s0dummy).count_reconn_attempts = 0 := by
  refine ⟨by decide, by decide, by decide, by decide, by decide⟩

/-- C2: the claim says that after `R` consecutive `ConnectionError`s
the orchestrator raises the connection-exhausted error and performs no
further network calls.  In the code the loop `while
count_reconn_attempts <= reconnection_attempts` admits one more
session after the counter reaches `R`, and the post-loop guard `if
count_reconn_attempts == reconnection_attempts` is evaluated when the
counter is necessarily `R + 1`, so `raise
requests.exceptions.ConnectionError` (line 421) is unreachable: the
concrete all-failing run with `R = 2` starts three sessions and then
returns silently, and no `runLoop` execution whatsoever produces the
`connExhausted` result. -/
theorem C2_exhaustion_error_unreachable :
    (runAllConnErr = RunResult.silentReturn (runAllConnErr.stateOf s0dummy)
      ∧ (runAllConnErr.stateOf s0dummy).attempts = 3
      ∧ (runAllConnErr.stateOf s0dummy).count_reconn_attempts = 3)
    ∧ ∀ (plans : Nat → AttemptPlan) (cs : Bool) (product tile : Str)
        (R fuel i : Nat) (s s' : OrchState),
        runLoop plans cs product tile R fuel i s ≠ RunResult.connExhausted s' := by
  refine ⟨⟨by decide, by decide, by decide⟩, ?_⟩
  intro plans cs product tile R fuel
  induction fuel with
  | zero => intro i s s' h; simp [runLoop] at h
  | succ fuel ih =>
    intro i s s' h
    rw [runLoop] at h
    by_cases hc : s.count_reconn_attempts ≤ R
    · rw [if_pos hc] at h
      cases hra : runAttempt (plans i) cs product tile s with
      | finishedA s1 => simp only [hra] at h; exact RunResult.noConfusion h
      | excA e s1 =>
        simp only [hra] at h
        cases hh : handleExc e s1 with
        | ok s2 => simp only [hh] at h; exact ih (i + 1) s2 s' h
        | crash c s2 => simp only [hh] at h; exact RunResult.noConfusion h
      | fatalA s1 => simp only [hra] at h; exact RunResult.noConfusion h
    · rw [if_neg hc] at h
      by_cases he : s.count_reconn_attempts = R
      · omega
      · rw [if_neg he] at h
        exact RunResult.noConfusion h

/-- C9 (counterexample): the claim says a request with `doy_start`
greater than the resolved `doy_end` fails immediately with an
`InvalidRangeError` before any network activity.  The code has no such
check: with `doy_start = 200` and `doy_end = 100` the run below logs
in and fetches the root listing (one full session of network calls)
and returns successfully, having processed nothing. -/
theorem C9_cex_no_invalid_range_error :
    runEmptyWindow.isDone = true
    ∧ (runEmptyWindow.stateOf s0dummy).attempts = 1
    ∧ (runEmptyWindow.stateOf s0dummy).processed = [] := by
  refine ⟨by decide, by decide, by decide⟩

/-- C9 (amended): when `doy_start` is at least the resolved `doy_end`,
the resolved window is empty and no error is raised: the run performs
its normal session (login and root listing — network activity) and
returns successfully having processed and downloaded nothing. -/
theorem C9_empty_window_proceeds
    (year doy_start : Nat) (doy_end : Int) (plans : Nat → AttemptPlan)
    (links : List Str) (product tile : Str) (R fuel : Nat) (cs : Bool) (fs0 : FS)
    (hw : (resolve_doy_end year doy_end).toNat ≤ doy_start)
    (hlg : (plans 0).login = none) (hok : (plans 0).loginOk = true)
    (hrt : (plans 0).root = .ok links) :
    get_modisfiles plans (fuel + 1) product tile year doy_start doy_end R cs fs0
      = RunResult.done ⟨[], some [], none, 0, fs0, [], 1⟩ := by
  rw [get_modisfiles, buildDates_of_le year doy_start _ hw]
  simp only [runLoop, runAttempt, hlg, hok, hrt, Bool.not_true, Bool.not_false,
    Nat.zero_le, if_true, parse_modis_dates_nil, innerLoop]
  simp

/-- C9 (witness): the amended statement at the concrete empty-window
run (`doy_start = 200`, `doy_end = 100`, year 2004). -/
theorem C9_empty_window_proceeds_witness :
    get_modisfiles plansEmptyWindow (2 + 1) productStr tileStr 2004 200 100 200 false []
      = RunResult.done ⟨[], some [], none, 0, [], [], 1⟩ :=
  C9_empty_window_proceeds 2004 200 100 plansEmptyWindow [] productStr tileStr 200 2 false []
    (by decide) rfl rfl rfl

/-- C10: the two recovery handlers are only well-defined once a date
has been popped in the current call.  First conjunct: a
`ConnectionError` raised during the very first login makes the handler
itself fail — `dates_available.insert` resolves `insert` on `None`
(`AttributeError`) — instead of reconnecting.  Second conjunct: a
`Timeout` raised during the initial root listing makes the `Timeout`
handler fail with a `NameError`, `date` being still unbound.  Third
conjunct: whenever a date has been popped (`date` bound and
`dates_available` a list), both handlers complete normally. -/
theorem C10_handler_preconditions :
    (runLoginConnErr = RunResult.crashed .attributeError (runLoginConnErr.stateOf s0dummy))
    ∧ (runRootTimeout = RunResult.crashed .nameError (runRootTimeout.stateOf s0dummy))
    ∧ ∀ (e : Exc) (ds q : List Str) (d : Str) (c : Nat) (fs : FS)
        (pr : List Str) (k : Nat),
        ∃ s', handleExc e ⟨ds, some q, some d, c, fs, pr, k⟩ = HandlerOut.ok s' := by
  refine ⟨by decide, by decide, ?_⟩
  intro e ds q d c fs pr k
  cases e
  · exact ⟨_, rfl⟩
  · exact ⟨_, rfl⟩

/-- C4 (counterexample): the claim says that whenever a download fails
mid-stream the final filename never appears in the output directory —
at most the `.part` file exists.  When `check_sizes` re-downloads an
existing legacy file (the spec's own 1024-local/2048-remote scenario)
and the stream dies after two chunks, the old copy is still bound
under the final name next to the fresh `.part` file: the code never
removes the stale final file before or during the download. -/
theorem C4_cex_stale_final_file_remains :
    process_date true tileStr envMid fsPre
      = PDResult.exc .timeout [(sampleFname ++ partSuffix, [512, 512]), (sampleFname, [1024])]
    ∧ lookupFS [(sampleFname ++ partSuffix, [512, 512]), (sampleFname, [1024])] sampleFname
      = some [1024] :=
  ⟨by decide, by decide⟩

/-- C4 (amended): every download streams its bytes into
`fname + '.part'` and the rename onto the final name happens only
after the streaming loop has fully completed.  Consequently a download
cancelled or failed mid-stream leaves the final name bound exactly as
it was before the download began — in particular, if the final file
was absent it is still absent and at most the `.part` file (holding
the chunks streamed so far) exists; only when `check_sizes`
re-downloads a file already present under its final name does that
stale copy stay visible next to the `.part` file.  An undisturbed
download publishes the full content under the final name and removes
the `.part` file. -/
theorem C4_download_atomicity (fs : FS) (fname : Str) (chunks : List Nat) (k : Nat) (e : Exc)
    (h : k < chunks.length) :
    (∃ fs2, download_file fs fname chunks (some (k, e)) = (fs2, some e)
      ∧ lookupFS fs2 fname = lookupFS fs fname
      ∧ lookupFS fs2 (fname ++ partSuffix)
          = some ((chunks.take k).filter (fun ch => decide (ch ≠ 0))))
    ∧ (∃ fs3, download_file fs fname chunks none = (fs3, none)
      ∧ lookupFS fs3 fname = some (chunks.filter (fun ch => decide (ch ≠ 0)))
      ∧ lookupFS fs3 (fname ++ partSuffix) = none) := by
  constructor
  · refine ⟨_, download_file_mid fs fname chunks k e h, ?_, ?_⟩
    · rw [lookupFS_appendAll_ne _ _ _ _ (self_ne_append_part fname),
        lookupFS_fsSet, if_neg (fun hh => self_ne_append_part fname hh.symm)]
    · rw [lookupFS_appendAll_self _ _ _ [] (by rw [lookupFS_fsSet, if_pos rfl])]
      simp
  · exact download_file_complete_lookup fs fname chunks

/-- C4 (witness): the amended statement at a concrete two-chunk
download interrupted after one chunk. -/
theorem C4_download_atomicity_witness :
    (∃ fs2, download_file [] ['a'] [7, 7] (some (1, .timeout)) = (fs2, some .timeout)
      ∧ lookupFS fs2 ['a'] = lookupFS [] ['a']
      ∧ lookupFS fs2 (['a'] ++ partSuffix)
          = some ((([7, 7] : List Nat).take 1).filter (fun ch => decide (ch ≠ 0))))
    ∧ (∃ fs3, download_file [] ['a'] [7, 7] none = (fs3, none)
      ∧ lookupFS fs3 ['a'] = some (([7, 7] : List Nat).filter (fun ch => decide (ch ≠ 0)))
      ∧ lookupFS fs3 (['a'] ++ partSuffix) = none) :=
  C4_download_atomicity [] ['a'] [7, 7] 1 .timeout (by decide)

/-- C7: the local completeness check of a date whose listing names a
file and whose remote calls succeed.  If the final filename is absent
the file is downloaded; if present with size checking disabled it is
skipped on existence alone; if present with size checking enabled it
is skipped exactly when the remote content length equals the local
byte count, and re-downloaded when the sizes differ. -/
theorem C7_local_completeness_check (cs : Bool) (tile text line : Str) (env : DateEnv) (fs : FS)
    (hl : env.listing = .ok text)
    (hsel : selectLine tile (splitOnChar '\n' text) = some line)
    (ho : env.openExc = none) (hr : env.rfileOk = true) (hst : env.streamExc = none) :
    (lookupFS fs (extractFname line) = none →
      ∃ fs2, process_date cs tile env fs = .ok fs2 (.downloaded (extractFname line)))
    ∧ (∀ c, lookupFS fs (extractFname line) = some c →
        process_date false tile env fs = .ok fs (.skipped (extractFname line)))
    ∧ (∀ c, lookupFS fs (extractFname line) = some c → env.remote_size = c.sum →
        process_date true tile env fs = .ok fs (.skipped (extractFname line)))
    ∧ (∀ c, lookupFS fs (extractFname line) = some c → env.remote_size ≠ c.sum →
        ∃ fs2, process_date true tile env fs = .ok fs2 (.downloaded (extractFname line))) := by
  obtain ⟨fs3, hdl, -, -⟩ := download_file_complete_lookup fs (extractFname line) env.chunks
  refine ⟨?_, ?_, ?_, ?_⟩
  · intro habs
    refine ⟨fs3, ?_⟩
    simp only [process_date, hl, hsel, habs, Option.isSome_none, Bool.false_eq_true, if_false,
      ho, hr, Bool.not_true, hst, hdl]
  · intro c hc
    simp only [process_date, hl, hsel, hc, Option.isSome_some, if_true, if_false,
      Bool.false_eq_true]
  · intro c hc hsz
    simp only [process_date, hl, hsel, hc, Option.isSome_some, if_true, ho, hr,
      Bool.not_true, Bool.false_eq_true, if_false, Option.getD_some, hsz, if_pos rfl]
  · intro c hc hsz
    refine ⟨fs3, ?_⟩
    simp only [process_date, hl, hsel, hc, Option.isSome_some, if_true, ho, hr,
      Bool.not_true, Bool.false_eq_true, if_false, Option.getD_some, if_neg hsz, hst, hdl]

/-- C7 (witness): the spec's own scenario — size checking enabled, the
local file holds 1024 bytes, the remote content length is 2048 — at
the sample listing line: the file is re-downloaded (and the absent,
disabled and equal-size branches behave as claimed). -/
theorem C7_local_completeness_check_witness :
    (lookupFS fsPre (extractFname sampleLine) = none →
      ∃ fs2, process_date true tileStr envFull fsPre
        = .ok fs2 (.downloaded (extractFname sampleLine)))
    ∧ (∀ c, lookupFS fsPre (extractFname sampleLine) = some c →
        process_date false tileStr envFull fsPre
          = .ok fsPre (.skipped (extractFname sampleLine)))
    ∧ (∀ c, lookupFS fsPre (extractFname sampleLine) = some c →
        envFull.remote_size = c.sum →
        process_date true tileStr envFull fsPre
          = .ok fsPre (.skipped (extractFname sampleLine)))
    ∧ (∀ c, lookupFS fsPre (extractFname sampleLine) = some c →
        envFull.remote_size ≠ c.sum →
        ∃ fs2, process_date true tileStr envFull fsPre
          = .ok fs2 (.downloaded (extractFname sampleLine))) :=
  C7_local_completeness_check true tileStr sampleLine sampleLine envFull fsPre
    rfl (by decide) rfl rfl rfl

/-- C3: when a `ConnectionError` interrupts the first session after
`N` of the `M` queued dates were fully processed, the in-flight date
is reinserted at the front of the queue — the queue after the handler
is exactly `q.drop N` (shown by the fuel-1 run halting right there) —
and the following successful session processes exactly those remaining
`M − N` dates, each exactly once, in ascending order (`q.drop N` keeps
the queue's strict sortedness and distinctness); over the two sessions
the processed log is exactly `q.take N ++ q.drop N = q`, so nothing is
reordered, duplicated or dropped. -/
theorem C3_connection_resume (q ds0 : List Str) (fs0 : FS) (N R : Nat)
    (cs : Bool) (product tile : Str)
    (hsort : List.Sorted (· < ·) q) (hN : N < q.length) (hR : 1 ≤ R) :
    (∃ sf, runLoop (plansResume q N) cs product tile R 2 0 (initQState ds0 q fs0)
        = RunResult.done sf
      ∧ sf.processed = q.take N ++ q.drop N ∧ sf.processed = q
      ∧ sf.count_reconn_attempts = 1 ∧ sf.attempts = 2)
    ∧ (q.drop N).length = q.length - N
    ∧ List.Sorted (· < ·) (q.drop N) ∧ (q.drop N).Nodup
    ∧ (∃ smid, runLoop (plansResume q N) cs product tile R 1 0 (initQState ds0 q fs0)
        = RunResult.outOfFuel smid
      ∧ smid.dates_available = some (q.drop N)
      ∧ smid.processed = q.take N ∧ smid.count_reconn_attempts = 1) := by
  have hnd : q.Nodup := hsort.nodup
  have hdisj : List.Disjoint (q.take N) (q.drop N) :=
    List.disjoint_take_drop hnd (le_refl N)
  have hdrop : q.drop N = q[N] :: q.drop (N + 1) := List.drop_eq_getElem_cons hN
  have hsplit : q.take N ++ q[N] :: q.drop (N + 1) = q := by
    rw [← hdrop]; exact List.take_append_drop N q
  have hmemd : q[N] ∈ q.drop N := by rw [hdrop]; exact List.mem_cons_self _ _
  have hbenign : envBenign benignEnv := ⟨⟨[], rfl⟩, rfl, rfl, rfl⟩
  have henvx : ∀ x ∈ q.take N, envBenign ((plansResume q N 0).dateEnv x) := by
    intro x hx
    have hnin : x ∉ q.drop N := fun hc => hdisj hx hc
    simp only [plansResume]
    rw [if_neg (fun hcond => hnin hcond.2)]
    exact hbenign
  have henvd : ((plansResume q N 0).dateEnv q[N]).listing = .error .connErr := by
    simp only [plansResume]
    rw [if_pos ⟨by simp, hmemd⟩]
    rfl
  have henv1 : ∀ d ∈ q[N] :: q.drop (N + 1), envBenign ((plansResume q N 1).dateEnv d) := by
    intro d _
    simp only [plansResume]
    rw [if_neg (fun hcond => Nat.one_ne_zero hcond.1)]
    exact hbenign
  -- first session: the take-N prefix is processed, the connection drops on q[N]
  obtain ⟨fsX, hinner0⟩ := innerLoop_failAt cs tile ((plansResume q N 0).dateEnv)
    (q.take N) (q[N]) (q.drop (N + 1)) .connErr henvd
    { initQState ds0 q fs0 with attempts := (initQState ds0 q fs0).attempts + 1 } henvx
  have hda0 : (initQState ds0 q fs0).dates_available
      = some (q.take N ++ q[N] :: q.drop (N + 1)) := by
    rw [hsplit]; rfl
  have hatt0 : runAttempt (plansResume q N 0) cs product tile (initQState ds0 q fs0)
      = .excA .connErr ⟨ds0, some (q.drop (N + 1)), some q[N], 0, fsX, q.take N, 1⟩ := by
    rw [runAttempt_queue (plansResume q N 0) cs product tile (initQState ds0 q fs0)
      (q.take N ++ q[N] :: q.drop (N + 1)) rfl rfl hda0]
    rw [hinner0]
    rfl
  have hstep1 := runLoop_step (plansResume q N) cs product tile R 1 0
    (initQState ds0 q fs0)
    ⟨ds0, some (q.drop (N + 1)), some q[N], 0, fsX, q.take N, 1⟩
    ⟨ds0, some (q[N] :: q.drop (N + 1)), some q[N], 1, fsX, q.take N, 1⟩
    .connErr (Nat.zero_le R) hatt0 rfl
  have hstep1' := runLoop_step (plansResume q N) cs product tile R 0 0
    (initQState ds0 q fs0)
    ⟨ds0, some (q.drop (N + 1)), some q[N], 0, fsX, q.take N, 1⟩
    ⟨ds0, some (q[N] :: q.drop (N + 1)), some q[N], 1, fsX, q.take N, 1⟩
    .connErr (Nat.zero_le R) hatt0 rfl
  -- second session: the remaining queue is processed to the end
  obtain ⟨sf, hfin, hfd, hfp, hfc, hfa⟩ := innerLoop_benign cs tile
    ((plansResume q N 1).dateEnv) (q[N] :: q.drop (N + 1))
    { (⟨ds0, some (q[N] :: q.drop (N + 1)), some q[N], 1, fsX, q.take N, 1⟩ : OrchState) with attempts := (⟨ds0, some (q[N] :: q.drop (N + 1)), some q[N], 1, fsX, q.take N, 1⟩ : OrchState).attempts + 1 }
    henv1
  have hatt1 : runAttempt (plansResume q N 1) cs product tile
      ⟨ds0, some (q[N] :: q.drop (N + 1)), some q[N], 1, fsX, q.take N, 1⟩
      = .finishedA sf := by
    rw [runAttempt_queue (plansResume q N 1) cs product tile
      ⟨ds0, some (q[N] :: q.drop (N + 1)), some q[N], 1, fsX, q.take N, 1⟩
      (q[N] :: q.drop (N + 1)) rfl rfl rfl]
    exact hfin
  have hstep2 := runLoop_step_done (plansResume q N) cs product tile R 0 1
    ⟨ds0, some (q[N] :: q.drop (N + 1)), some q[N], 1, fsX, q.take N, 1⟩
    sf hR hatt1
  have hfp' : sf.processed = q.take N ++ (q[N] :: q.drop (N + 1)) := hfp
  refine ⟨⟨sf, hstep1.trans hstep2, ?_, ?_, hfc, hfa⟩, ?_, ?_, ?_, ?_⟩
  · rw [hdrop]; exact hfp'
  · exact hfp'.trans hsplit
  · simp
  · exact hsort.sublist (List.drop_sublist _ _)
  · exact List.Nodup.sublist (List.drop_sublist _ _) hnd
  · refine ⟨⟨ds0, some (q[N] :: q.drop (N + 1)), some q[N], 1, fsX, q.take N, 1⟩,
      hstep1'.trans rfl, ?_, rfl, rfl⟩
    rw [hdrop]

/-- C3 (witness): the resume statement at the concrete two-date queue
`[date1, date2]` with the connection dropping after one processed
date. -/
theorem C3_connection_resume_witness :
    (∃ sf, runLoop (plansResume [date1, date2] 1) false [] [] 1 2 0
        (initQState [] [date1, date2] [])
        = RunResult.done sf
      ∧ sf.processed = [date1, date2].take 1 ++ [date1, date2].drop 1
      ∧ sf.processed = [date1, date2]
      ∧ sf.count_reconn_attempts = 1 ∧ sf.attempts = 2)
    ∧ ([date1, date2].drop 1).length = [date1, date2].length - 1
    ∧ List.Sorted (· < ·) ([date1, date2].drop 1) ∧ ([date1, date2].drop 1).Nodup
    ∧ (∃ smid, runLoop (plansResume [date1, date2] 1) false [] [] 1 1 0
        (initQState [] [date1, date2] [])
        = RunResult.outOfFuel smid
      ∧ smid.dates_available = some ([date1, date2].drop 1)
      ∧ smid.processed = [date1, date2].take 1 ∧ smid.count_reconn_attempts = 1) :=
  C3_connection_resume [date1, date2] [] [] 1 1 false [] []
    (by decide) (by decide) (by decide)

/-- C5 (counterexample): the claim says `parse_modis_dates` always
returns `sorted(A ∩ R)`.  In the default mode (`check_sizes` unset)
the function additionally drops dates whose file is already present
locally: with the root listing offering `2004.06.01`, that date
requested, and the matching legacy file in the output directory, the
function returns `[]` while `sorted(A ∩ R)` is `["2004.06.01"]`. -/
theorem C5_cex_local_exclusion :
    parse_modis_dates ["2004.06.01/".toList] [date1] productStr tileStr
      [localLegacyFile] false = []
    ∧ specSortedInter (["2004.06.01/".toList].map List.dropLast) [date1] = [date1] :=
  ⟨by decide, by decide⟩

/-- C5 (amended): with size-verification mode enabled (`check_sizes`
set) the catalog filter returns exactly `sorted(A ∩ R)` for all
available sets `A` (the trimmed root-listing links) and requested sets
`R`, and in particular the empty list whenever `A ∩ R` is empty.
(With the mode disabled, dates already present locally and entries not
parsable as `YYYY.MM.DD` are additionally excluded, as the
counterexample shows.) -/
theorem C5_catalog_filter_sorted_intersection (links dates : List Str)
    (product tile : Str) (listdir : List Str) :
    parse_modis_dates links dates product tile listdir true
      = specSortedInter (links.map List.dropLast) dates
    ∧ ((∀ x ∈ dates, x ∉ links.map List.dropLast) →
        parse_modis_dates links dates product tile listdir true = []) := by
  refine ⟨parse_modis_dates_true_eq links dates product tile listdir, fun hdis => ?_⟩
  rw [parse_modis_dates_true_eq links dates product tile listdir]
  unfold specSortedInter
  have hnil : (links.map List.dropLast).filter (· ∈ dates) = [] := by
    refine List.filter_eq_nil_iff.mpr ?_
    intro a ha
    simp only [decide_eq_true_eq]
    exact fun had => hdis a had ha
  rw [hnil]
  rfl

/-- C5 (witness): the amended statement at the counterexample's own
catalog, where size-verification mode keeps the date. -/
theorem C5_catalog_filter_sorted_intersection_witness :
    parse_modis_dates ["2004.06.01/".toList] [date1] productStr tileStr
      [localLegacyFile] true
      = specSortedInter (["2004.06.01/".toList].map List.dropLast) [date1]
    ∧ ((∀ x ∈ [date1], x ∉ (["2004.06.01/".toList].map List.dropLast)) →
        parse_modis_dates ["2004.06.01/".toList] [date1] productStr tileStr
          [localLegacyFile] true = []) :=
  C5_catalog_filter_sorted_intersection ["2004.06.01/".toList] [date1]
    productStr tileStr [localLegacyFile]

/-- C8: selection within a date listing.  (1) A selected line contains
the tile code and `".hdf"` but not `".hdf.xml"`, and it is the first
such line — every earlier line fails the predicate; with "contains"
meaning a genuine substring decomposition.  (2) When no line matches,
the date's processing completes with `noFile` — nothing written, no
error — and the inner loop moves on to the remaining dates, merely
logging the date as handled.  (3) A completed iteration that selected
a line concerns exactly one file: the outcome names the extracted file
(skipped or downloaded) and every other name in the output directory
is untouched, so at most one file is downloaded per date. -/
theorem C8_entry_selection (tile text : Str) (env : DateEnv) (fs : FS) (cs : Bool)
    (hl : env.listing = .ok text) :
    (∀ line, selectLine tile (splitOnChar '\n' text) = some line →
      ((∃ a b, line = a ++ tile ++ b)
        ∧ (∃ a b, line = a ++ hdfStr ++ b)
        ∧ ¬ (∃ a b, line = a ++ hdfXmlStr ++ b)
        ∧ ∃ pre post, splitOnChar '\n' text = pre ++ line :: post
            ∧ ∀ x ∈ pre, matchLine tile x = false))
    ∧ ((∀ l ∈ splitOnChar '\n' text, matchLine tile l = false) →
        process_date cs tile env fs = .ok fs .noFile)
    ∧ (∀ (envf : Str → DateEnv) (d : Str) (rest : List Str) (s : OrchState),
        envf d = env → s.fs = fs →
        (∀ l ∈ splitOnChar '\n' text, matchLine tile l = false) →
        innerLoop cs tile envf (d :: rest) s
          = innerLoop cs tile envf rest { s with dates_available := some rest, date := some d, fs := s.fs, processed := s.processed ++ [d] })
    ∧ (∀ line fs2 out, selectLine tile (splitOnChar '\n' text) = some line →
        process_date cs tile env fs = .ok fs2 out →
        (out = .skipped (extractFname line) ∨ out = .downloaded (extractFname line))
        ∧ ∀ g, g ≠ extractFname line → g ≠ extractFname line ++ partSuffix →
            lookupFS fs2 g = lookupFS fs g) := by
  refine ⟨?_, ?_, ?_, ?_⟩
  · intro line hline
    obtain ⟨pre, post, hsplit, hpre, hmatch⟩ :=
      find?_eq_some_split (matchLine tile) (splitOnChar '\n' text) line hline
    have hm := hmatch
    simp only [matchLine, Bool.and_eq_true, Bool.not_eq_eq_eq_not, Bool.not_true] at hm
    obtain ⟨⟨htile, hhdf⟩, hxml⟩ := hm
    refine ⟨(isSubstrOf_iff _ _).mp htile, (isSubstrOf_iff _ _).mp hhdf, ?_,
      pre, post, hsplit, hpre⟩
    intro hdec
    rw [← isSubstrOf_iff] at hdec
    rw [hdec] at hxml
    exact Bool.noConfusion hxml
  · intro hno
    exact process_date_noFile cs tile env fs text hl hno
  · intro envf d rest s henv hfs hno
    simp only [innerLoop]
    rw [henv, hfs, process_date_noFile cs tile env fs text hl hno]
  · intro line fs2 out hline hok
    exact process_date_fs_confined cs tile env fs fs2 text line out hl hline hok

/-- C8 (witness): the selection statement at the sample listing
(single line naming the tile's `.hdf` file) in an empty directory. -/
theorem C8_entry_selection_witness :
    (∀ line, selectLine tileStr (splitOnChar '\n' sampleLine) = some line →
      ((∃ a b, line = a ++ tileStr ++ b)
        ∧ (∃ a b, line = a ++ hdfStr ++ b)
        ∧ ¬ (∃ a b, line = a ++ hdfXmlStr ++ b)
        ∧ ∃ pre post, splitOnChar '\n' sampleLine = pre ++ line :: post
            ∧ ∀ x ∈ pre, matchLine tileStr x = false))
    ∧ ((∀ l ∈ splitOnChar '\n' sampleLine, matchLine tileStr l = false) →
        process_date false tileStr goodEnv [] = .ok [] .noFile)
    ∧ (∀ (envf : Str → DateEnv) (d : Str) (rest : List Str) (s : OrchState),
        envf d = goodEnv → s.fs = [] →
        (∀ l ∈ splitOnChar '\n' sampleLine, matchLine tileStr l = false) →
        innerLoop false tileStr envf (d :: rest) s
          = innerLoop false tileStr envf rest { s with dates_available := some rest, date := some d, fs := s.fs, processed := s.processed ++ [d] })
    ∧ (∀ line fs2 out, selectLine tileStr (splitOnChar '\n' sampleLine) = some line →
        process_date false tileStr goodEnv [] = .ok fs2 out →
        (out = .skipped (extractFname line) ∨ out = .downloaded (extractFname line))
        ∧ ∀ g, g ≠ extractFname line → g ≠ extractFname line ++ partSuffix →
            lookupFS fs2 g = lookupFS [] g) :=
  C8_entry_selection tileStr sampleLine goodEnv [] false rfl

/-- C6: with `doy_end = -1` the resolved end day-of-year is 367 for a
leap year and 366 otherwise, and the produced window holds exactly one
date string per day-of-year of the half-open range
`[doy_start, doy_end)`: the list is defined (no `strptime` failure),
has `doy_end − doy_start` entries, its `i`-th entry is the calendar
date of day-of-year `doy_start + i`, and the entries are pairwise
distinct — exactly one date string per day-of-year.  (`strptime`'s
`%Y` matches exactly four digits, whence the year bounds;
`doy_start ≥ 1` keeps `%j` in range.) -/
theorem C6_date_window (year doy_start : Nat)
    (h1 : 1000 ≤ year) (h2 : year ≤ 9999) (h3 : 1 ≤ doy_start) :
    resolve_doy_end year (-1) = (if isleap year then (367 : Int) else 366)
    ∧ ∃ l, buildDates year doy_start (resolve_doy_end year (-1)).toNat = some l
      ∧ l.length = (resolve_doy_end year (-1)).toNat - doy_start
      ∧ (∀ i (hi : i < l.length),
          l.get ⟨i, hi⟩ = strftimeYmd (doyToDate year (doy_start + i)).1
            (doyToDate year (doy_start + i)).2.1 (doyToDate year (doy_start + i)).2.2)
      ∧ l.Nodup := by
  refine ⟨by simp [resolve_doy_end], ?_⟩
  rw [resolve_doy_end_toNat]
  refine ⟨(List.range' doy_start (daysInYear year + 1 - doy_start)).map
      (fun i => strftimeYmd (doyToDate year i).1 (doyToDate year i).2.1 (doyToDate year i).2.2),
    ?_, ?_, ?_, ?_⟩
  · unfold buildDates
    refine mapM_option_eq_map _ _ _ ?_
    intro i hi
    rw [List.mem_range'_1] at hi
    have hy366 : daysInYear year ≤ 366 := by unfold daysInYear; cases isleap year <;> simp
    have hi366 : i ≤ 366 := by omega
    rw [show strptimeJY i year = some (doyToDate year i) from
      if_pos ⟨by omega, hi366, h1, h2⟩]
    rfl
  · simp
  · intro i hi
    simp only [List.get_eq_getElem, List.getElem_map, List.getElem_range']
    simp
  · refine List.Nodup.map_on ?_ (List.nodup_range' ..)
    intro i hi j hj heq
    rw [List.mem_range'_1] at hi hj
    have hy366 : daysInYear year ≤ 366 := by unfold daysInYear; cases isleap year <;> simp
    have hiy : i ≤ daysInYear year := by omega
    have hjy : j ≤ daysInYear year := by omega
    have si := doyToDate_spec year i (by omega) hiy
    have sj := doyToDate_spec year j (by omega) hjy
    have hinj := strftimeYmd_inj (doyToDate year i).1 (doyToDate year i).2.1
      (doyToDate year i).2.2 (doyToDate year j).1 (doyToDate year j).2.1
      (doyToDate year j).2.2
      (by rw [si.1]; omega) (by rw [sj.1]; omega)
      (by have := si.2.2.1; omega) (by have := sj.2.2.1; omega)
      (by have := si.2.2.2.2.1; omega) (by have := sj.2.2.2.2.1; omega)
      heq
    have hi' := si.2.2.2.2.2
    have hj' := sj.2.2.2.2.2
    rw [← hinj.2.1, ← hinj.2.2] at hj'
    omega

/-- C6 (witness): the date window of the leap year 2004 starting at
day 1. -/
theorem C6_date_window_witness :
    resolve_doy_end 2004 (-1) = (if isleap 2004 then (367 : Int) else 366)
    ∧ ∃ l, buildDates 2004 1 (resolve_doy_end 2004 (-1)).toNat = some l
      ∧ l.length = (resolve_doy_end 2004 (-1)).toNat - 1
      ∧ (∀ i (hi : i < l.length),
          l.get ⟨i, hi⟩ = strftimeYmd (doyToDate 2004 (1 + i)).1
            (doyToDate 2004 (1 + i)).2.1 (doyToDate 2004 (1 + i)).2.2)
      ∧ l.Nodup :=
  C6_date_window 2004 1 (by decide) (by decide) (by decide)

end GetModis
